import Mathlib

set_option maxHeartbeats 1000000
set_option linter.unusedVariables false

namespace Quotemaker

/-- Tokens of the Markov chain: the two special markers bounding every walk, and
ordinary word tokens. -/
inductive Tok where
  | BEGIN : Tok
  | END : Tok
  | word : String → Tok
deriving DecidableEq

/-- An outgoing distribution: next token paired with its occurrence count. -/
abbrev Dist := List (Tok × Nat)

/-- The chain: a table from states (tuples of `order` tokens) to outgoing
distributions, kept as an association list in first-insertion order. -/
abbrev Chain := List (List Tok × Dist)

/-- A built model: the configured order together with the transition chain. -/
structure Model where
  order : Nat
  chain : Chain
deriving DecidableEq

/-- The three typed failure conditions of the core. -/
inductive QError where
  | EmptyCorpus : QError
  | CorruptModel : QError
  | NoSentenceFound : QError
deriving DecidableEq

/-- Modelled from the spec (section 4.1): pad the front of a sentence with `k` BEGIN
markers and append one END marker. -/
def padSentence (k : Nat) (sent : List String) : List Tok :=
  List.replicate k Tok.BEGIN ++ sent.map Tok.word ++ [Tok.END]

/-- Modelled from the spec (section 4.1): slide a window of size `k` over the padded
token sequence; at each position the state is the `k` tokens in the window and the
observed next token is the one immediately following. -/
def transitions (k : Nat) (l : List Tok) : List (List Tok × Tok) :=
  (List.range (l.length - k)).filterMap fun i =>
    match (l.drop (i + k)).head? with
    | some t => some ((l.drop i).take k, t)
    | none => none

/-- Increment the count of a token inside a distribution, inserting it with count 1
when absent. -/
def bumpDist : Dist → Tok → Dist
  | [], t => [(t, 1)]
  | (a, c) :: rest, t =>
    if a = t then (a, c + 1) :: rest else (a, c) :: bumpDist rest t

/-- Increment the count of one observed (state, next token) pair in the chain. -/
def bump : Chain → List Tok → Tok → Chain
  | [], s, t => [(s, [(t, 1)])]
  | (s0, d) :: rest, s, t =>
    if s0 = s then (s0, bumpDist d t) :: rest else (s0, d) :: bump rest s t

/-- Modelled from the spec (section 4.1): the usable sentences of a corpus are those
still holding at least one token. -/
def usableSentences (corpus : List (List String)) : List (List String) :=
  corpus.filter fun s => !s.isEmpty

/-- Record every transition observed in one padded sentence. -/
def addSentence (k : Nat) (ch : Chain) (sent : List String) : Chain :=
  (transitions k (padSentence k sent)).foldl (fun ch2 p => bump ch2 p.1 p.2) ch

/-- Accumulate the chain over all usable sentences. -/
def buildChain (k : Nat) (us : List (List String)) : Chain :=
  us.foldl (fun ch sent => addSentence k ch sent) []

/-- Modelled from the spec (section 4.1, the Chain Builder lives inside the external
markovify dependency and is absent from src): build a model of order `k` from a corpus,
failing with EmptyCorpus when zero usable sentences remain after filtering. -/
def build (corpus : List (List String)) (k : Nat) : Except QError Model :=
  if (usableSentences corpus).isEmpty then Except.error QError.EmptyCorpus
  else Except.ok ⟨k, buildChain k (usableSentences corpus)⟩

/-- Modelled from the spec (section 4.2): the persisted form, a self-describing
key-to-distribution table plus an order field; counts are persisted as integers so a
malformed file can carry a negative count, and the order field can be absent. -/
structure SerModel where
  order : Option Nat
  records : List (List Tok × List (Tok × Int))
deriving DecidableEq

/-- Modelled from the spec (section 4.2): serialization writes the order and the chain
records verbatim. -/
def serialize (m : Model) : SerModel :=
  ⟨some m.order, m.chain.map fun p => (p.1, p.2.map fun q => (q.1, (q.2 : Int)))⟩

/-- Modelled from the spec (section 4.2): deserialization validates the persisted form
(order present, every state tuple of the stated arity, no negative count) and fails
with CorruptModel otherwise. -/
def deserialize (s : SerModel) : Except QError Model :=
  match s.order with
  | none => Except.error QError.CorruptModel
  | some k =>
    if s.records.all (fun r => r.1.length == k && r.2.all fun q => decide (0 ≤ q.2)) then
      Except.ok ⟨k, s.records.map fun r => (r.1, r.2.map fun q => (q.1, q.2.toNat))⟩
    else Except.error QError.CorruptModel

/-- Malformed persisted forms, in the words of the spec: missing order field, a record
of wrong arity (state tuple length differing from the stated order), or a negative
count. -/
def malformed (s : SerModel) : Bool :=
  s.order.isNone ||
    s.records.any fun r =>
      r.1.length != s.order.getD 0 || r.2.any fun q => decide (q.2 < 0)

/-- Total weight of a distribution: the sum of its occurrence counts. -/
def totalWeight (dist : Dist) : Nat := (dist.map Prod.snd).sum

/-- Modelled from the spec (sections 4.3 step 3 and 9): cumulative-weight selection
with a single uniform draw `r`; the token owning the count interval containing `r` is
chosen. -/
def weightedChoice : Dist → Nat → Option Tok
  | [], _ => none
  | (t, c) :: rest, r => if r < c then some t else weightedChoice rest (r - c)

/-- Total occurrence count a token holds inside a distribution. -/
def weightOf (t : Tok) (dist : Dist) : Nat :=
  ((dist.filter fun p => decide (p.1 = t)).map Prod.snd).sum

/-- Look up the outgoing distribution of a state. -/
def lookupDist : Chain → List Tok → Option Dist
  | [], _ => none
  | (s0, d) :: rest, s => if s0 = s then some d else lookupDist rest s

/-- Modelled from the spec (section 4.3 steps 2 and 3): one step of the sampling walk
looks up the outgoing distribution of the current state and draws the next token by
cumulative weight from the uniform draw `r`. -/
def walkStep (m : Model) (state : List Tok) (r : Nat) : Option Tok :=
  match lookupDist m.chain state with
  | none => none
  | some dist => weightedChoice dist (r % totalWeight dist)

/-- Modelled from the spec (section 4.3 step 4): rejection sampling over a bounded list
of attempts; each attempt is a failed walk (`none`) or a candidate sentence; a
candidate is returned only when its character length is within the bound, and
exhaustion fails with NoSentenceFound. -/
def sampleAttempts (bound : Nat) : List (Option (List Char)) → Except QError (List Char)
  | [] => Except.error QError.NoSentenceFound
  | none :: rest => sampleAttempts bound rest
  | some s :: rest =>
    if s.length ≤ bound then Except.ok s else sampleAttempts bound rest

/-- No attempt satisfies the length constraint: every walk failed or produced a
candidate longer than the bound. -/
def noAttemptFits (bound : Nat) (attempts : List (Option (List Char))) : Bool :=
  attempts.all fun a =>
    match a with
    | none => true
    | some s => decide (bound < s.length)

/-- From src/quotemaker.py line 109: get_ai_quote invokes the sampler with the literal
bound 100, ignoring its own max_chars argument; the attempts list stands for the
sampler's random walks. -/
def get_ai_quote (max_chars : Nat) (attempts : List (Option (List Char))) :
    Except QError (List Char) :=
  sampleAttempts 100 attempts

/-- From src/quotemaker.py line 80: a sentence survives the filter exactly when the
character length of its text exceeds 1. -/
def keepSentence (sent : List Char) : Bool := decide (1 < sent.length)

/-- Stated from the spec (section 4.1 edge cases): a sentence holds at least one real
token after whitespace trimming exactly when some character of it is not whitespace. -/
def hasRealToken (sent : List Char) : Bool := sent.any fun c => !c.isWhitespace

/-- From src/quotemaker.py lines 79 to 81: the sentences generate_model keeps. -/
def generate_model_kept (sents : List (List Char)) : List (List Char) :=
  sents.filter keepSentence

/-- From src/quotemaker.py line 77: only the slice [0:1000000] of the corpus file text
reaches the NLP pipeline. -/
def corpusSlice (text : List Char) : List Char := text.take 1000000

/-- From src/quotemaker.py lines 72 to 86: generate_model reads the corpus text, takes
the million-character slice, sentence-splits it through the external NLP collaborator
(passed here as a function), and builds an order-3 model. -/
def generate_model (split : List Char → List (List String)) (text : List Char) :
    Except QError Model :=
  build (split (corpusSlice text)) 3

/-- Possible values of the Python call random.randint(a, b): the inclusive range from
a to b. -/
def pyRandintVals (a b : Nat) : List Nat := (List.range (b - a + 1)).map (a + ·)

/-- From src/quotemaker.py line 125: the indices get_quote may draw for a parsed
quotes list. -/
def get_quote_index_vals (quotes : List (List String)) : List Nat :=
  pyRandintVals 0 quotes.length

/-- Outcomes as the caller sees them: a value, a typed recoverable error, or process
termination (the fate of the quit() calls in src). -/
inductive Outcome (α : Type) where
  | ok : α → Outcome α
  | err : QError → Outcome α
  | fatal : Outcome α

/-- Whether an outcome terminated the process. -/
def Outcome.isFatal : Outcome α → Bool
  | .fatal => true
  | _ => false

/-- View a core result as a caller-visible outcome: errors stay values. -/
def toOutcome : Except QError α → Outcome α
  | .ok a => Outcome.ok a
  | .error e => Outcome.err e

/-- From src/quotemaker.py lines 102 to 107: a missing model file is answered by
quit(), a process-fatal path; the spec classifies it as a collaborator failure,
distinct from the three recoverable kinds. -/
def loadModelFile : Option SerModel → Outcome SerModel
  | none => Outcome.fatal
  | some s => Outcome.ok s

/-- A two-token distribution observed ten to one, used to exhibit weighting. -/
def demoDist : Dist := [(Tok.word "A", 10), (Tok.word "B", 1)]

/-- Arity invariant of a chain: every state tuple has length `k`. -/
def ChainArity (k : Nat) (ch : Chain) : Prop := ∀ p ∈ ch, p.1.length = k

/-- The model built from the one-sentence corpus [["a"]] at order 1. -/
def demoModel : Model :=
  ⟨1, [([Tok.BEGIN], [(Tok.word "a", 1)]), ([Tok.word "a"], [(Tok.END, 1)])]⟩

theorem totalWeight_cons (t : Tok) (c : Nat) (rest : Dist) :
    totalWeight ((t, c) :: rest) = c + totalWeight rest := by
  simp [totalWeight]

theorem weightOf_cons (t a : Tok) (c : Nat) (rest : Dist) :
    weightOf t ((a, c) :: rest) = (if a = t then c else 0) + weightOf t rest := by
  by_cases h : a = t <;> simp [weightOf, List.filter_cons, h]

theorem countP_weightedChoice (dist : Dist) (t : Tok) :
    (List.range (totalWeight dist)).countP
      (fun r => decide (weightedChoice dist r = some t)) = weightOf t dist := by
  induction dist with
  | nil => simp [totalWeight, weightOf, weightedChoice]
  | cons p rest ih =>
    obtain ⟨a, c⟩ := p
    rw [totalWeight_cons, List.range_add, List.countP_append, List.countP_map]
    have h1 : (List.range c).countP
        (fun r => decide (weightedChoice ((a, c) :: rest) r = some t))
        = if a = t then c else 0 := by
      by_cases hat : a = t
      · subst hat
        rw [if_pos rfl]
        have hall : ∀ r ∈ List.range c,
            (fun r => decide (weightedChoice ((a, c) :: rest) r = some a)) r = true := by
          intro r hr
          rw [List.mem_range] at hr
          simp [weightedChoice, if_pos hr]
        rw [List.countP_eq_length.mpr hall, List.length_range]
      · rw [if_neg hat]
        apply List.countP_eq_zero.mpr
        intro r hr
        rw [List.mem_range] at hr
        simp only [weightedChoice, if_pos hr, decide_eq_true_eq, Option.some.injEq]
        exact fun hh => hat hh
    have h2 : (List.range (totalWeight rest)).countP
        ((fun r => decide (weightedChoice ((a, c) :: rest) r = some t)) ∘ (c + ·))
        = weightOf t rest := by
      have hiff : ∀ r ∈ List.range (totalWeight rest),
          ((fun r => decide (weightedChoice ((a, c) :: rest) r = some t)) ∘ (c + ·)) r = true
            ↔ (fun r => decide (weightedChoice rest r = some t)) r = true := by
        intro r hr
        have hnl : ¬ (c + r < c) := by omega
        simp [Function.comp, weightedChoice, if_neg hnl, Nat.add_sub_cancel_left]
      rw [List.countP_congr hiff, ih]
    rw [h1, h2, weightOf_cons]

theorem transitions_arity (k : Nat) (l : List Tok) :
    ∀ p ∈ transitions k l, p.1.length = k := by
  intro p hp
  unfold transitions at hp
  rw [List.mem_filterMap] at hp
  obtain ⟨i, hi, hf⟩ := hp
  rw [List.mem_range] at hi
  cases hh : (l.drop (i + k)).head? with
  | none => rw [hh] at hf; exact absurd hf (by simp)
  | some t =>
    rw [hh] at hf
    obtain rfl := Option.some.inj hf
    have hk : k ≤ l.length - i := by omega
    simp only [List.length_take, List.length_drop]
    omega

theorem bump_arity (k : Nat) (s : List Tok) (t : Tok) (hs : s.length = k) :
    ∀ ch : Chain, ChainArity k ch → ChainArity k (bump ch s t) := by
  intro ch
  induction ch with
  | nil =>
    intro _ p hp
    simp only [bump, List.mem_singleton] at hp
    rw [hp]
    exact hs
  | cons q rest ih =>
    obtain ⟨s0, d⟩ := q
    intro hch p hp
    simp only [bump] at hp
    by_cases h0 : s0 = s
    · rw [if_pos h0] at hp
      rcases List.mem_cons.mp hp with h | h
      · rw [h]
        exact hch (s0, d) (List.mem_cons_self _ _)
      · exact hch p (List.mem_cons_of_mem _ h)
    · rw [if_neg h0] at hp
      rcases List.mem_cons.mp hp with h | h
      · rw [h]
        exact hch (s0, d) (List.mem_cons_self _ _)
      · exact ih (fun q hq => hch q (List.mem_cons_of_mem _ hq)) p h

theorem foldBump_arity (k : Nat) :
    ∀ (ts : List (List Tok × Tok)) (ch : Chain),
      (∀ p ∈ ts, p.1.length = k) → ChainArity k ch →
      ChainArity k (ts.foldl (fun ch2 p => bump ch2 p.1 p.2) ch) := by
  intro ts
  induction ts with
  | nil => intro ch _ hch; exact hch
  | cons p rest ih =>
    intro ch hts hch
    simp only [List.foldl_cons]
    exact ih _ (fun q hq => hts q (List.mem_cons_of_mem _ hq))
      (bump_arity k p.1 p.2 (hts p (List.mem_cons_self _ _)) ch hch)

theorem addSentence_arity (k : Nat) (ch : Chain) (sent : List String)
    (hch : ChainArity k ch) : ChainArity k (addSentence k ch sent) :=
  foldBump_arity k (transitions k (padSentence k sent)) ch
    (transitions_arity k (padSentence k sent)) hch

theorem buildChain_arity (k : Nat) (us : List (List String)) :
    ChainArity k (buildChain k us) := by
  unfold buildChain
  have hgen : ∀ (l : List (List String)) (ch : Chain), ChainArity k ch →
      ChainArity k (l.foldl (fun ch sent => addSentence k ch sent) ch) := by
    intro l
    induction l with
    | nil => intro ch h; exact h
    | cons sent rest ih =>
      intro ch hch
      simp only [List.foldl_cons]
      exact ih _ (addSentence_arity k ch sent hch)
  exact hgen us [] (fun p hp => absurd hp (List.not_mem_nil p))

theorem build_arity (corpus : List (List String)) (k : Nat) (m : Model)
    (h : build corpus k = Except.ok m) : m.order = k ∧ ChainArity k m.chain := by
  unfold build at h
  cases he : (usableSentences corpus).isEmpty with
  | true => rw [he] at h; simp at h
  | false =>
    rw [he] at h
    simp only [Bool.false_eq_true, if_false, Except.ok.injEq] at h
    rw [← h]
    exact ⟨rfl, buildChain_arity k (usableSentences corpus)⟩

theorem distRound (d : List (Tok × Nat)) :
    (d.map fun q => (q.1, (q.2 : Int))).map (fun q => (q.1, q.2.toNat)) = d := by
  induction d with
  | nil => rfl
  | cons q rest ih => simp [ih]

theorem chainRound (ch : Chain) :
    (ch.map fun p => (p.1, p.2.map fun q => (q.1, (q.2 : Int)))).map
      (fun r => (r.1, r.2.map fun q => (q.1, q.2.toNat))) = ch := by
  induction ch with
  | nil => rfl
  | cons p rest ih => simp [ih, distRound p.2]

theorem serialize_roundTrip_core (m : Model) (h : ChainArity m.order m.chain) :
    deserialize (serialize m) = Except.ok m := by
  obtain ⟨k, ch⟩ := m
  have hc : (ch.map fun p => (p.1, p.2.map fun q => (q.1, (q.2 : Int)))).all
      (fun r => r.1.length == k && r.2.all fun q => decide (0 ≤ q.2)) = true := by
    rw [List.all_eq_true]
    intro r hr
    rw [List.mem_map] at hr
    obtain ⟨p, hp, rfl⟩ := hr
    simp only [Bool.and_eq_true, beq_iff_eq]
    refine ⟨h p hp, ?_⟩
    rw [List.all_eq_true]
    intro q hq
    rw [List.mem_map] at hq
    obtain ⟨q0, hq0, rfl⟩ := hq
    simp [Int.natCast_nonneg]
  simp only [serialize, deserialize]
  rw [if_pos hc, chainRound]

/-- C1: the claimed bound fails on the code: get_ai_quote called with max_chars = 50
still accepts and returns a 60-character sentence, because src/quotemaker.py line 109
passes the literal 100 to the sampler instead of the max_chars argument. -/
theorem get_ai_quote_ignores_max_chars :
    get_ai_quote 50 [some (List.replicate 60 'a')] =
        Except.ok (List.replicate 60 'a') ∧
      50 < (List.replicate 60 'a').length :=
  ⟨rfl, by decide⟩

/-- C2: at each walk step the next token is drawn from the current state's outgoing
distribution in proportion to its occurrence count: of the totalWeight equally likely
uniform draws, exactly weightOf t select token t; in particular for the distribution
observed ten to one, ten of the eleven draws select the ten-count token and one selects
the one-count token, so the former is ten times as likely. -/
theorem sampling_weighted_by_count :
    (∀ (dist : Dist) (t : Tok),
      (List.range (totalWeight dist)).countP
        (fun r => decide (weightedChoice dist r = some t)) = weightOf t dist) ∧
    (List.range (totalWeight demoDist)).countP
      (fun r => decide (weightedChoice demoDist r = some (Tok.word "A"))) = 10 ∧
    (List.range (totalWeight demoDist)).countP
      (fun r => decide (weightedChoice demoDist r = some (Tok.word "B"))) = 1 :=
  ⟨countP_weightedChoice, by decide, by decide⟩

/-- C3: for every model the builder produces, deserializing its serialization gives
back exactly the same model: same order, same states in the same positions, same
counts, nothing added or lost. -/
theorem build_serialize_roundtrip (corpus : List (List String)) (k : Nat) (m : Model)
    (h : build corpus k = Except.ok m) : deserialize (serialize m) = Except.ok m := by
  obtain ⟨hk, har⟩ := build_arity corpus k m h
  exact serialize_roundTrip_core m (by rw [hk]; exact har)

/-- Witness for C3 at the one-sentence corpus [["a"]] with order 1. -/
theorem build_serialize_roundtrip_witness :
    build [["a"]] 1 = Except.ok demoModel ∧
      deserialize (serialize demoModel) = Except.ok demoModel :=
  ⟨rfl, build_serialize_roundtrip [["a"]] 1 demoModel rfl⟩

/-- C4: when no attempt inside the retry budget satisfies the length constraint, the
sampler fails with NoSentenceFound; the result is an error value, never a returned
default, empty, or truncated sentence. -/
theorem sample_exhausted (bound : Nat) (attempts : List (Option (List Char)))
    (h : noAttemptFits bound attempts = true) :
    sampleAttempts bound attempts = Except.error QError.NoSentenceFound := by
  induction attempts with
  | nil => rfl
  | cons a rest ih =>
    cases a with
    | none =>
      rw [noAttemptFits, List.all_cons] at h
      simp only [Bool.true_and] at h
      exact ih h
    | some s =>
      rw [noAttemptFits, List.all_cons] at h
      simp only [Bool.and_eq_true, decide_eq_true_eq] at h
      obtain ⟨hs, hrest⟩ := h
      simp only [sampleAttempts]
      rw [if_neg (by omega)]
      exact ih hrest

/-- Witness for C4: a four-character candidate and a failed walk against bound 3. -/
theorem sample_exhausted_witness :
    noAttemptFits 3 [some ['a', 'b', 'c', 'd'], none] = true ∧
      sampleAttempts 3 [some ['a', 'b', 'c', 'd'], none] =
        Except.error QError.NoSentenceFound :=
  ⟨by decide, sample_exhausted 3 [some ['a', 'b', 'c', 'd'], none] (by decide)⟩

/-- C5: the three typed failures are recoverable values handed back to the caller,
never the fatal outcome that models process termination, and after any of them the
caller can retry: a different corpus builds, a well-formed persisted form
deserializes, and a relaxed bound samples successfully. -/
theorem core_failures_recoverable :
    (∀ (c : List (List String)) (k : Nat), (toOutcome (build c k)).isFatal = false) ∧
    (∀ s : SerModel, (toOutcome (deserialize s)).isFatal = false) ∧
    (∀ (bound : Nat) (atts : List (Option (List Char))),
        (toOutcome (sampleAttempts bound atts)).isFatal = false) ∧
    (∃ (c : List (List String)) (m : Model), build c 3 = Except.ok m) ∧
    (∃ (s : SerModel) (m : Model), deserialize s = Except.ok m) ∧
    (∃ (atts : List (Option (List Char))) (s : List Char),
        sampleAttempts 100 atts = Except.ok s) := by
  refine ⟨?_, ?_, ?_, ?_, ?_, ?_⟩
  · intro c k; cases build c k <;> rfl
  · intro s; cases deserialize s <;> rfl
  · intro bound atts; cases sampleAttempts bound atts <;> rfl
  · exact ⟨[["a"]], ⟨3, [([Tok.BEGIN, Tok.BEGIN, Tok.BEGIN], [(Tok.word "a", 1)]),
      ([Tok.BEGIN, Tok.BEGIN, Tok.word "a"], [(Tok.END, 1)])]⟩, rfl⟩
  · exact ⟨⟨some 1, []⟩, ⟨1, []⟩, rfl⟩
  · exact ⟨[some ['a']], ['a'], rfl⟩

/-- C6: building from a corpus in which zero usable sentences remain after filtering
fails with EmptyCorpus. -/
theorem build_empty_corpus (corpus : List (List String)) (k : Nat)
    (h : usableSentences corpus = []) :
    build corpus k = Except.error QError.EmptyCorpus := by
  simp [build, h]

/-- Witness for C6: a corpus holding only one empty sentence filters to nothing. -/
theorem build_empty_corpus_witness :
    usableSentences [[]] = [] ∧ build [[]] 3 = Except.error QError.EmptyCorpus :=
  ⟨rfl, build_empty_corpus [[]] 3 rfl⟩

/-- C7: every malformed persisted form, missing order field, wrong state arity, or a
negative count, fails deserialization with CorruptModel. -/
theorem deserialize_malformed (s : SerModel) (h : malformed s = true) :
    deserialize s = Except.error QError.CorruptModel := by
  obtain ⟨o, recs⟩ := s
  cases o with
  | none => rfl
  | some k =>
    simp only [malformed, Option.isNone_some, Bool.false_or, Option.getD_some] at h
    have hno : ¬ (recs.all
        (fun r => r.1.length == k && r.2.all fun q => decide (0 ≤ q.2)) = true) := by
      intro hall
      rw [List.all_eq_true] at hall
      rw [List.any_eq_true] at h
      obtain ⟨r, hr, hviol⟩ := h
      have hok := hall r hr
      simp only [Bool.and_eq_true, beq_iff_eq, List.all_eq_true, decide_eq_true_eq]
        at hok
      simp only [Bool.or_eq_true, bne_iff_ne, List.any_eq_true, decide_eq_true_eq]
        at hviol
      rcases hviol with hlen | ⟨q, hq, hneg⟩
      · exact hlen hok.1
      · have := hok.2 q hq; omega
    simp only [deserialize]
    rw [if_neg hno]

/-- Witness for C7: a record of arity 1 under a stated order of 2. -/
theorem deserialize_malformed_witness :
    malformed ⟨some 2, [([Tok.BEGIN], [(Tok.END, 1)])]⟩ = true ∧
      deserialize ⟨some 2, [([Tok.BEGIN], [(Tok.END, 1)])]⟩ =
        Except.error QError.CorruptModel :=
  ⟨by decide, deserialize_malformed ⟨some 2, [([Tok.BEGIN], [(Tok.END, 1)])]⟩ (by decide)⟩

/-- C8 counterexample: the one-character sentence holds a real token after trimming,
so the claim says it is kept, yet the filter of src/quotemaker.py line 80 discards
it. -/
theorem keepSentence_claim_cex :
    keepSentence ['a'] = false ∧ hasRealToken ['a'] = true := by
  decide

/-- C8 amended: a sentence survives the builder's filter exactly when its raw text is
at least two characters long; a one-character sentence is discarded even when it is a
real token, and a two-character whitespace-only sentence is kept. -/
theorem keepSentence_amended :
    (∀ sent : List Char, keepSentence sent = decide (2 ≤ sent.length)) ∧
      keepSentence [' ', ' '] = true ∧
      keepSentence ['a'] = false ∧
      generate_model_kept [['a'], [' ', ' '], ['o', 'k']] = [[' ', ' '], ['o', 'k']] := by
  refine ⟨fun sent => rfl, by decide, by decide, by decide⟩

/-- C9: generate_model reads at most the first 1000000 characters of the corpus file;
text past that slice never reaches the splitter or the model. -/
theorem generate_model_prefix_only (split : List Char → List (List String))
    (text extra : List Char) (h : 1000000 ≤ text.length) :
    generate_model split (text ++ extra) = generate_model split text := by
  unfold generate_model corpusSlice
  rw [List.take_append_of_le_length h]

/-- Witness for C9 at a million-character text extended by one extra character. -/
theorem generate_model_prefix_only_witness :
    1000000 ≤ (List.replicate 1000000 'a').length ∧
      generate_model (fun _ => [["a"]]) (List.replicate 1000000 'a' ++ ['b']) =
        generate_model (fun _ => [["a"]]) (List.replicate 1000000 'a') :=
  ⟨by rw [List.length_replicate], generate_model_prefix_only (fun _ => [["a"]])
    (List.replicate 1000000 'a') ['b'] (by rw [List.length_replicate])⟩

/-- C10: the inclusive range of random.randint(0, len(quotes)) always contains
len(quotes) itself, so for the one-row quotes list the drawable index 1 is not
strictly below the list length and the final access can be out of bounds. -/
theorem get_quote_index_oob :
    (∀ quotes : List (List String), quotes.length ∈ get_quote_index_vals quotes) ∧
      ([["q"]] : List (List String)).length ∈ get_quote_index_vals [["q"]] ∧
      ¬ (([["q"]] : List (List String)).length
          < ([["q"]] : List (List String)).length) := by
  refine ⟨?_, by decide, by omega⟩
  intro quotes
  unfold get_quote_index_vals pyRandintVals
  rw [List.mem_map]
  exact ⟨quotes.length, List.mem_range.mpr (by omega), Nat.zero_add _⟩

end Quotemaker
